import Mathlib

/-!
Shallow embedding of the gelf-logger repository (Go), for checking its
natural-language specification.

Source files embedded:
  * `gelflogger.go` — `Logger` (connect, ensureConnection, Log),
    `formatGELFMessage`, `GelfWriter.Write`;
  * `pkg/zerologger/zerologger.go` — `ProcessZerologFields`,
    `ConvertZerologLevelToGraylog`.

Modelling conventions:
  * Go `interface` values that arise from `encoding/json` decoding (and the
    extra non-JSON-encodable Go values such as channels, on which
    `json.Marshal` fails) are modelled by the inductive `GoVal`; JSON numbers
    (Go `float64`) are modelled by `ℚ`.
  * A Go `map[string]interface` value is modelled by an association list
    `GoMap`; `mapGet`/`mapSet`/`mapDel` model indexing, assignment and
    `delete`.  Go maps have no duplicate keys, so theorems that need it take a
    `Nodup` hypothesis on the key list.
  * `json.Marshal` renders a Go map with its keys sorted bytewise; on
    canonical (key-sorted) trees the textual JSON rendering is injective, so a
    marshalled byte buffer is modelled by its canonical value tree
    (`jsonMarshal : GoVal → Option GoVal`, `none` = marshal error).  A Go
    string holding such a rendering (the `full_message` slot, where Go uses
    `string(fullMessage)`, and `string` of nil bytes is `""`) is modelled by
    the constructor `GoVal.jsonStr (t : Option GoVal)`.
  * The network is modelled by an explicit trace `NetTrace`: the outcomes of
    the successive `net.Dialer.Dial` calls and of the successive
    `net.Conn.Write` calls (including the zero-length liveness probe) are
    consumed in order; an exhausted trace counts as a failure.  Fresh
    connections get increasing identifiers.  The `connLock` mutex makes every
    operation sequential, which is what the explicit state passing models;
    `connect` additionally re-acquires this non-reentrant mutex while
    `ensureConnection` and `Log` still hold it, so a successful in-call
    redial blocks forever — modelled by an explicit `hangs` outcome.
  * `time.Now().UnixMilli()` is passed in as an explicit parameter `nowMs`.
  * Go run-time panics (the unchecked type assertion on the `level` field,
    and calling `Write` on a nil connection) are modelled by explicit
    `panics` outcomes.
-/

/-- A dynamically typed Go value, as produced by `encoding/json` decoding,
extended with `goOnly` (a Go value with no JSON encoding, e.g. a channel —
`json.Marshal` fails on it) and `jsonStr` (a Go string holding the JSON
rendering of a canonical tree, `none` rendering as the empty string). -/
inductive GoVal where
  | str (s : String)
  | num (q : ℚ)
  | bool (b : Bool)
  | null
  | arr (xs : List GoVal)
  | obj (fs : List (String × GoVal))
  | goOnly (tag : Nat)
  | jsonStr (t : Option GoVal)

mutual
/-- Boolean equality test on `GoVal`, used to build `DecidableEq GoVal`
(the automatic derivation does not handle this nested inductive). -/
def goValBeq : GoVal → GoVal → Bool
  | .str a, .str b => a == b
  | .num a, .num b => a == b
  | .bool a, .bool b => a == b
  | .null, .null => true
  | .goOnly a, .goOnly b => a == b
  | .jsonStr Option.none, .jsonStr Option.none => true
  | .jsonStr (Option.some a), .jsonStr (Option.some b) => goValBeq a b
  | .arr a, .arr b => goListBeq a b
  | .obj a, .obj b => goFieldsBeq a b
  | _, _ => false

def goListBeq : List GoVal → List GoVal → Bool
  | [], [] => true
  | [], _ :: _ => false
  | _ :: _, [] => false
  | a :: as, b :: bs => goValBeq a b && goListBeq as bs

def goFieldsBeq : List (String × GoVal) → List (String × GoVal) → Bool
  | [], [] => true
  | [], _ :: _ => false
  | _ :: _, [] => false
  | (k, v) :: as, (k2, v2) :: bs => k == k2 && goValBeq v v2 && goFieldsBeq as bs
end

theorem goValBeq_iff : ∀ a b : GoVal, goValBeq a b = true ↔ a = b := by
  have main :
      ∀ a b : GoVal, (goValBeq a b = true ↔ a = b) := by
    intro a b
    refine goValBeq.induct
      (fun a b => goValBeq a b = true ↔ a = b)
      (fun x y => goFieldsBeq x y = true ↔ x = y)
      (fun x y => goListBeq x y = true ↔ x = y)
      ?_ ?_ ?_ ?_ ?_ ?_ ?_ ?_ ?_ ?_ ?_ ?_ ?_ ?_ ?_ ?_ ?_ ?_ a b
    · intros; simp [goValBeq]
    · intros; simp [goValBeq]
    · intros; simp [goValBeq]
    · simp [goValBeq]
    · intros; simp [goValBeq]
    · simp [goValBeq]
    · intro a b ih; simp [goValBeq, ih]
    · intro a b ih; simp [goValBeq, ih]
    · intro a b ih; simp [goValBeq, ih]
    · intro t x h1 h2 h3 h4 h5 h6 h7 h8 h9
      cases t <;> cases x <;>
        first
          | exact (h1 _ _ rfl rfl).elim
          | exact (h2 _ _ rfl rfl).elim
          | exact (h3 _ _ rfl rfl).elim
          | exact (h4 rfl rfl).elim
          | exact (h5 _ _ rfl rfl).elim
          | exact (h8 _ _ rfl rfl).elim
          | exact (h9 _ _ rfl rfl).elim
          | (rename_i o1 o2
             cases o1 <;> cases o2 <;>
               first
                 | exact (h6 rfl rfl).elim
                 | exact (h7 _ _ rfl rfl).elim
                 | simp [goValBeq])
          | simp [goValBeq]
    · simp [goListBeq]
    · intros; simp [goListBeq]
    · intros; simp [goListBeq]
    · intro a as b bs ih1 ih2; simp [goListBeq, ih1, ih2]
    · simp [goFieldsBeq]
    · intros; simp [goFieldsBeq]
    · intros; simp [goFieldsBeq]
    · intro k v as k2 v2 bs ih1 ih2
      simp [goFieldsBeq, ih1, ih2, and_assoc]
  exact main

instance : DecidableEq GoVal := fun a b =>
  decidable_of_iff (goValBeq a b = true) (goValBeq_iff a b)

/-- A Go `map[string]interface` value, as an association list. -/
abbrev GoMap := List (String × GoVal)

/-- Go map indexing `m[k]` (`none` = key absent). -/
def mapGet (m : GoMap) (k : String) : Option GoVal :=
  (m.find? (fun p => p.1 == k)).map (fun p => p.2)

/-- Go map assignment `m[k] = v`: replace the value at an existing key,
otherwise add the binding. -/
def mapSet (m : GoMap) (k : String) (v : GoVal) : GoMap :=
  if m.any (fun p => p.1 == k) then
    m.map (fun p => if p.1 == k then (k, v) else p)
  else
    m ++ [(k, v)]

/-- Go `delete(m, k)`. -/
def mapDel (m : GoMap) (k : String) : GoMap :=
  m.filter (fun p => p.1 != k)

/-- Bytewise (= code-point-wise, for UTF-8) comparison of strings: the order
in which `encoding/json` sorts the keys of a Go map before rendering it. -/
def keyLe (a b : String) : Bool :=
  go a.data b.data
where
  go : List Char → List Char → Bool
    | [], _ => true
    | _ :: _, [] => false
    | c :: cs, d :: ds => if c = d then go cs ds else decide (c.val < d.val)

/-- Sort the fields of an object by key, as `json.Marshal` does. -/
def sortFields (fs : List (String × GoVal)) : List (String × GoVal) :=
  List.insertionSort (fun p q => keyLe p.1 q.1 = true) fs

mutual
/-- Whether `json.Marshal` succeeds on the value (it fails exactly on the
non-JSON-encodable Go values). -/
def marshalable : GoVal → Bool
  | .str _ => true
  | .num _ => true
  | .bool _ => true
  | .null => true
  | .goOnly _ => false
  | .jsonStr _ => true
  | .arr xs => marshalableList xs
  | .obj fs => marshalableFields fs

def marshalableList : List GoVal → Bool
  | [] => true
  | x :: xs => marshalable x && marshalableList xs

def marshalableFields : List (String × GoVal) → Bool
  | [] => true
  | p :: fs => marshalable p.2 && marshalableFields fs
end

mutual
/-- The canonical form of a value: every object's fields sorted by key.  The
JSON text produced by `json.Marshal` is an injective function of this tree. -/
def canon : GoVal → GoVal
  | .str s => .str s
  | .num q => .num q
  | .bool b => .bool b
  | .null => .null
  | .goOnly n => .goOnly n
  | .jsonStr t => .jsonStr t
  | .arr xs => .arr (canonList xs)
  | .obj fs => .obj (sortFields (canonFields fs))

def canonList : List GoVal → List GoVal
  | [] => []
  | x :: xs => canon x :: canonList xs

def canonFields : List (String × GoVal) → List (String × GoVal)
  | [] => []
  | (k, v) :: fs => (k, canon v) :: canonFields fs
end

/-- `json.Marshal`, modelled at tree level: fails on non-encodable values,
otherwise produces the canonical tree whose rendering is the output bytes. -/
def jsonMarshal (v : GoVal) : Option GoVal :=
  if marshalable v then some (canon v) else none

/-- Division on `ℚ` written with the kernel-reducible `Rat.divInt`
(`Rat.div` itself is irreducible and blocks `decide`); `ratDiv_eq_div`
proves that it is ordinary division. -/
def ratDiv (a b : ℚ) : ℚ :=
  Rat.divInt (a.num * b.den) (a.den * b.num)

theorem ratDiv_eq_div (a b : ℚ) : ratDiv a b = a / b := by
  rcases eq_or_ne b 0 with rfl | hb
  · simp [ratDiv]
  · have hbn : (b.num : ℚ) ≠ 0 := by
      exact_mod_cast Rat.num_ne_zero.mpr hb
    have had : ((a.den : ℚ)) ≠ 0 := by
      exact_mod_cast (Rat.den_pos a).ne'
    have hbd : ((b.den : ℚ)) ≠ 0 := by
      exact_mod_cast (Rat.den_pos b).ne'
    have ha' : (a.num : ℚ) = a * a.den := (div_eq_iff had).mp (Rat.num_div_den a)
    have hb' : (b.num : ℚ) = b * b.den := (div_eq_iff hbd).mp (Rat.num_div_den b)
    rw [ratDiv, Rat.divInt_eq_div]
    push_cast
    field_simp
    rw [ha', hb']
    ring

/-- `ConvertZerologLevelToGraylog` from `pkg/zerologger/zerologger.go`:
`zerolog.ParseLevel` on the textual zerolog level names combined with the
`LogLevelMap` table; every unrecognised or unmapped name falls back to 6
(Info). -/
def ConvertZerologLevelToGraylog (level : String) : Int :=
  if level = "debug" then 7
  else if level = "info" then 6
  else if level = "warn" then 4
  else if level = "error" then 3
  else if level = "fatal" then 2
  else if level = "panic" then 1
  else 6

/-- Outcome of `ProcessZerologFields`: a run-time panic (the unchecked type
assertion on `level`), an error return, or success carrying the four Go
return values plus the mutated field map (the Go function mutates its
argument in place). -/
inductive ProcResult where
  | panics
  | fails (e : String)
  | ok (graylogLevel : Int) (glTimeStamp : ℚ) (fullMessage : Option GoVal) (fields : GoMap)
deriving DecidableEq

/-- The first mutation of `ProcessZerologFields`: `fields["time"] = now`
when `time` is absent. -/
def withTimeDefault (nowMs : ℚ) (m : GoMap) : GoMap :=
  if (mapGet m "time").isSome then m else mapSet m "time" (.num nowMs)

/-- The second mutation of `ProcessZerologFields`: `fields["level"] = "info"`
when `level` is absent. -/
def withLevelDefault (m : GoMap) : GoMap :=
  if (mapGet m "level").isSome then m else mapSet m "level" (.str "info")

/-- The field map at the point where `ProcessZerologFields` marshals it into
`fullMessage`: `time` defaulted, `level` defaulted and then replaced by the
numeric Graylog severity of the level name `lvl`. -/
def processedMap (nowMs : ℚ) (fields : GoMap) (lvl : String) : GoMap :=
  mapSet (withLevelDefault (withTimeDefault nowMs fields)) "level"
    (.num ((ConvertZerologLevelToGraylog lvl : Int) : ℚ))

/-- `ProcessZerologFields` from `pkg/zerologger/zerologger.go`, line by line:
default the `time` field to `nowMs` when absent; fail if `time` is not a
`float64`; default `level` to `"info"` when absent; run the unchecked
assertion `.(string)` on the `level` value (panic on a non-string); compute
the Graylog level and `time / 1000`; replace `level` by the numeric severity;
marshal the map into `fullMessage` (a marshal error is only logged, so
execution continues with nil bytes, modelled as `none`); then delete
`level`, `time` and `message` from the map. -/
def ProcessZerologFields (nowMs : ℚ) (fields : GoMap) : ProcResult :=
  match mapGet (withTimeDefault nowMs fields) "time" with
  | some (.num t) =>
    match mapGet (withLevelDefault (withTimeDefault nowMs fields)) "level" with
    | some (.str lvl) =>
      .ok (ConvertZerologLevelToGraylog lvl) (ratDiv t 1000)
        (jsonMarshal (.obj (processedMap nowMs fields lvl)))
        (mapDel (mapDel (mapDel (processedMap nowMs fields lvl) "level") "time") "message")
    | some _ => .panics
    | none => .panics
  | some _ => .fails "field `time` is not of type loat64; invalid log message format"
  | none => .fails "field `time` is not of type loat64; invalid log message format"

/-- Outcome of `formatGELFMessage`: panic propagated from the field
processor, an error, or the marshalled wire record. -/
inductive FmtResult where
  | panics
  | fails (e : String)
  | ok (wire : GoVal)
deriving DecidableEq

/-- The value stored for one extra field in the loop of `formatGELFMessage`:
booleans are rendered by `strconv.FormatBool`, everything else is copied. -/
def gelfExtra : GoVal → GoVal
  | .bool b => .str (if b then "true" else "false")
  | v => v

/-- The `gelfMsg` map literal of `formatGELFMessage`: the six reserved
entries. -/
def gelfBase (message host : String) (graylogLevel : Int) (glTimeStamp : ℚ)
    (fullMessage : Option GoVal) : GoMap :=
  [("version", .str "1.1"),
   ("host", .str host),
   ("short_message", .str message),
   ("full_message", .jsonStr fullMessage),
   ("timestamp", .num glTimeStamp),
   ("level", .num (graylogLevel : ℚ))]

/-- The GELF record map built by `formatGELFMessage` before marshalling:
the six reserved entries, then one `"_" ++ k` entry per field left in the
processed map, booleans rendered by `strconv.FormatBool`. -/
def gelfRecordMap (message host : String) (graylogLevel : Int) (glTimeStamp : ℚ)
    (fullMessage : Option GoVal) (fields : GoMap) : GoMap :=
  fields.foldl
    (fun g p => mapSet g ("_" ++ p.1) (gelfExtra p.2))
    (gelfBase message host graylogLevel glTimeStamp fullMessage)

/-- `formatGELFMessage` from `gelflogger.go`: run the field processor,
build the GELF record map and marshal it. -/
def formatGELFMessage (message : String) (fields : GoMap) (host : String) (nowMs : ℚ) :
    FmtResult :=
  match ProcessZerologFields nowMs fields with
  | .panics => .panics
  | .fails e => .fails e
  | .ok gl ts fm fields2 =>
    match jsonMarshal (.obj (gelfRecordMap message host gl ts fm fields2)) with
    | some w => .ok w
    | none => .fails "json: unsupported type"

/-- The network environment, as an explicit trace: outcomes of the successive
dial attempts and of the successive connection writes (the zero-length
liveness probe included), consumed in order; an exhausted trace is a failure.
`nextConnId` numbers the connections a successful dial would produce. -/
structure NetTrace where
  dials : List Bool
  writes : List Bool
  nextConnId : Nat
deriving DecidableEq

/-- The `Logger` struct of `gelflogger.go`.  The `connLock` mutex serializes
the operations, which the sequential state passing models; `connect`
additionally re-acquires that mutex around `l.conn = conn`, and since Go's
`sync.Mutex` is not reentrant, a `connect` whose dial succeeds while the
caller already holds the lock blocks forever — see `Logger.connect`.  The
TLS configuration is opaque and only affects dialing, which the trace
models. -/
structure Logger where
  conn : Option Nat
  address : String
  useTLS : Bool
  host : String
deriving DecidableEq

/-- One `conn.Write` call: consumes the next write outcome of the trace. -/
def connWrite (t : NetTrace) : Option String × NetTrace :=
  match t.writes with
  | [] => (some "connection write error", t)
  | b :: rest =>
    (if b then none else some "connection write error", { t with writes := rest })

/-- Outcome of an operation on the session: blocked forever on the
non-reentrant `connLock` (`hangs`), or a return carrying the Go error
value (`ret none` = nil error). -/
inductive ConnOutcome where
  | hangs
  | ret (err : Option String)
deriving DecidableEq

/-- `Logger.connect` from `gelflogger.go`: one dial attempt.  On dial
failure the error is returned before any locking.  On success the source
executes `l.connLock.Lock(); l.conn = conn; l.connLock.Unlock()`: when the
caller already holds `connLock` (`lockHeld = true` — the case for the calls
inside `ensureConnection` and `Log`, which hold it by `defer`; only
`NewLogger` calls `connect` without it), the non-reentrant mutex blocks the
goroutine forever, before the connection handle is replaced.  Otherwise the
handle is replaced by the fresh connection and nil is returned. -/
def Logger.connect (lockHeld : Bool) (l : Logger) (t : NetTrace) :
    ConnOutcome × Logger × NetTrace :=
  match t.dials with
  | [] => (.ret (some "dial error"), l, t)
  | b :: rest =>
    if b then
      if lockHeld then
        (.hangs, l, { t with dials := rest })
      else
        (.ret none, { l with conn := some t.nextConnId },
         { t with dials := rest, nextConnId := t.nextConnId + 1 })
    else
      (.ret (some "dial error"), l, { t with dials := rest })

/-- `Logger.ensureConnection` from `gelflogger.go`.  It takes `connLock`
(released by `defer`), so both of its `l.connect()` calls run with the lock
held: a redial whose dial succeeds deadlocks inside `connect` before
`l.conn` is updated.  The source's shadowed `err` (after a probe failure,
the inner `err := l.connect()` is a new variable, so the fall-through
`return err` would return the probe's error) is mirrored by the
`.ret none` arm, which is unreachable at run time because a successful
`connect` under the held lock hangs instead of returning nil. -/
def Logger.ensureConnection (l : Logger) (t : NetTrace) :
    ConnOutcome × Logger × NetTrace :=
  match l.conn with
  | none => l.connect true t
  | some _ =>
    let pr := connWrite t
    match pr.1 with
    | none => (.ret none, l, pr.2)
    | some pe =>
      let cr := l.connect true pr.2
      match cr.1 with
      | .hangs => (.hangs, cr.2.1, cr.2.2)
      | .ret (some de) => (.ret (some de), cr.2.1, cr.2.2)
      | .ret none => (.ret (some pe), cr.2.1, cr.2.2)

/-- Outcome of `Logger.Log`. -/
inductive LogResult where
  | panics
  | hangs
  | fails (e : String)
  | ok
deriving DecidableEq

/-- `Logger.Log` from `gelflogger.go`: format the GELF message, take
`connLock` (released by `defer`), write the payload to the current
connection; on a write failure call `l.connect()` — still holding the lock,
so a successful dial deadlocks inside `connect` — returning the dial error
if the dial fails.  The source's retry write is mirrored by the `.ret none`
arm, which is unreachable at run time for the same reason as in
`ensureConnection`.  A `Write` on a nil connection is a Go run-time
panic. -/
def Logger.Log (l : Logger) (message : String) (fields : GoMap) (nowMs : ℚ)
    (t : NetTrace) : LogResult × Logger × NetTrace :=
  match formatGELFMessage message fields l.host nowMs with
  | .panics => (.panics, l, t)
  | .fails e => (.fails e, l, t)
  | .ok _ =>
    match l.conn with
    | none => (.panics, l, t)
    | some _ =>
      let w1 := connWrite t
      match w1.1 with
      | none => (.ok, l, w1.2)
      | some _ =>
        let cr := l.connect true w1.2
        match cr.1 with
        | .hangs => (.hangs, cr.2.1, cr.2.2)
        | .ret (some de) => (.fails de, cr.2.1, cr.2.2)
        | .ret none =>
          let w2 := connWrite cr.2.2
          match w2.1 with
          | none => (.ok, cr.2.1, w2.2)
          | some we => (.fails we, cr.2.1, w2.2)

/-- The byte buffer passed to `GelfWriter.Write`: its length together with
what `json.Unmarshal` would decode it to (`none` when it is not valid JSON
or not a JSON object). -/
structure InBuf where
  len : Nat
  decoded : Option GoMap
deriving DecidableEq

/-- Outcome of `GelfWriter.Write`: a Go run-time panic, a call blocked
forever on `connLock`, or the returned pair `(n, err)`. -/
inductive WriteResult where
  | panics
  | hangs
  | ret (n : Nat) (err : Option String)
deriving DecidableEq

/-- `GelfWriter.Write` from `gelflogger.go`: unmarshal the buffer, extract
the `message` string, ensure the connection is alive, send via `Logger.Log`;
on success return the length of the input buffer, on any error return 0 and
the error; a deadlock or panic below propagates (the call never returns). -/
def GelfWriter.Write (l : Logger) (p : InBuf) (nowMs : ℚ) (t : NetTrace) :
    WriteResult × Logger × NetTrace :=
  match p.decoded with
  | none => (.ret 0 (some "invalid character in JSON"), l, t)
  | some logMsg =>
    match mapGet logMsg "message" with
    | some (.str message) =>
      let er := l.ensureConnection t
      match er.1 with
      | .hangs => (.hangs, er.2.1, er.2.2)
      | .ret (some e) => (.ret 0 (some e), er.2.1, er.2.2)
      | .ret none =>
        match er.2.1.Log message logMsg nowMs er.2.2 with
        | (.panics, l2, t2) => (.panics, l2, t2)
        | (.hangs, l2, t2) => (.hangs, l2, t2)
        | (.fails e, l2, t2) => (.ret 0 (some e), l2, t2)
        | (.ok, l2, t2) => (.ret p.len none, l2, t2)
    | _ => (.ret 0 (some "log message is not a string"), l, t)

example :
    ProcessZerologFields 2000 [("message", .str "m")] =
      .ok 6 2 (some (.obj [("level", .num 6), ("message", .str "m"), ("time", .num 2000)]))
        [] := by decide

example :
    ProcessZerologFields 0 [("message", .str "m"), ("level", .num 5)] = .panics := by decide

example :
    ProcessZerologFields 0 [("message", .str "i"), ("time", .str "2024-01-01T01:01:01")]
      = .fails "field `time` is not of type loat64; invalid log message format" := by decide

example :
    formatGELFMessage "m" [("level", .str "error"), ("message", .str "m"), ("time", .num 5)]
        "h" 0 =
      .ok (.obj
        [("full_message", .jsonStr (some (.obj
            [("level", .num 3), ("message", .str "m"), ("time", .num 5)]))),
         ("host", .str "h"),
         ("level", .num 3),
         ("short_message", .str "m"),
         ("timestamp", .num (mkRat 1 200)),
         ("version", .str "1.1")]) := by decide

/-! ### Association-list lemmas for the Go map model -/

theorem mapGet_cons (p : String × GoVal) (m : GoMap) (k : String) :
    mapGet (p :: m) k = if p.1 = k then some p.2 else mapGet m k := by
  by_cases h : p.1 = k <;> simp [mapGet, List.find?_cons, h]

theorem mapGet_append (m1 m2 : GoMap) (k : String) :
    mapGet (m1 ++ m2) k
      = if (mapGet m1 k).isSome then mapGet m1 k else mapGet m2 k := by
  induction m1 with
  | nil => simp [mapGet]
  | cons p m ih => by_cases h : p.1 = k <;> simp [mapGet_cons, h, ih]

theorem mapGet_isSome_iff (m : GoMap) (k : String) :
    (mapGet m k).isSome = m.any (fun p => p.1 == k) := by
  induction m with
  | nil => rfl
  | cons p m ih => by_cases h : p.1 = k <;> simp [mapGet_cons, h, ih]

theorem mapGet_eq_none_iff (m : GoMap) (k : String) :
    mapGet m k = none ↔ k ∉ m.map Prod.fst := by
  induction m with
  | nil => simp [mapGet]
  | cons p m ih =>
    by_cases h : p.1 = k
    · simp [mapGet_cons, h, ih]
    · simp [mapGet_cons, h, ih]
      simp [Ne.symm h]

theorem mem_of_mapGet_eq_some {m : GoMap} {k : String} {v : GoVal}
    (h : mapGet m k = some v) : (k, v) ∈ m := by
  induction m with
  | nil => simp [mapGet] at h
  | cons p m ih =>
    rcases p with ⟨a, b⟩
    rw [mapGet_cons] at h
    by_cases hp : a = k
    · simp [hp] at h
      simp [hp, h]
    · simp [hp] at h
      exact List.mem_cons_of_mem _ (ih h)

theorem mapGet_eq_some_of_mem {m : GoMap} {k : String} {v : GoVal}
    (hn : (m.map Prod.fst).Nodup) (hm : (k, v) ∈ m) : mapGet m k = some v := by
  induction m with
  | nil => simp at hm
  | cons p m ih =>
    rcases p with ⟨a, b⟩
    rw [mapGet_cons]
    rcases List.mem_cons.mp hm with heq | hmem
    · cases heq
      simp
    · have ha : a ≠ k := by
        intro hak
        subst hak
        exact (List.nodup_cons.mp hn).1
          (by simpa using List.mem_map_of_mem Prod.fst hmem)
      simp only [ha, if_false]
      exact ih (List.nodup_cons.mp hn).2 hmem

theorem mapGet_eq_of_perm {m m' : GoMap} (hp : m.Perm m')
    (hn : (m.map Prod.fst).Nodup) (k : String) : mapGet m k = mapGet m' k := by
  have hn' : (m'.map Prod.fst).Nodup := ((hp.map Prod.fst).nodup_iff).mp hn
  cases hm : mapGet m k with
  | none =>
    rw [mapGet_eq_none_iff] at hm
    symm
    rw [mapGet_eq_none_iff]
    exact fun hk => hm (((hp.map Prod.fst).mem_iff).mpr hk)
  | some v =>
    exact (mapGet_eq_some_of_mem hn' ((hp.mem_iff).mp (mem_of_mapGet_eq_some hm))).symm

theorem mapGet_map_replace (m : GoMap) (k k' : String) (v : GoVal) :
    mapGet (m.map (fun p => if p.1 == k then (k, v) else p)) k'
      = if k = k' then (mapGet m k).map (fun _ => v) else mapGet m k' := by
  have hfun : (fun p : String × GoVal => if p.1 == k then (k, v) else p)
      = (fun p => if p.1 = k then (k, v) else p) := by
    funext p
    by_cases h : p.1 = k <;> simp [h]
  rw [hfun]
  induction m with
  | nil => by_cases h : k = k' <;> simp [mapGet, h]
  | cons p m ih =>
    rcases p with ⟨a, b⟩
    by_cases hak : a = k <;> by_cases hkk : k = k'
    · subst hak; subst hkk
      simp [mapGet_cons, ih]
    · subst hak
      simp [mapGet_cons, hkk, ih]
    · subst hkk
      simp [mapGet_cons, hak, ih]
    · by_cases hak' : a = k'
      · subst hak'
        simp [mapGet_cons, hak, hkk]
      · simp [mapGet_cons, hak, hak', hkk, ih]

theorem mapGet_mapSet_self (m : GoMap) (k : String) (v : GoVal) :
    mapGet (mapSet m k v) k = some v := by
  unfold mapSet
  split
  · rw [mapGet_map_replace]
    rename_i h
    have : (mapGet m k).isSome := by rw [mapGet_isSome_iff]; exact h
    obtain ⟨x, hx⟩ := Option.isSome_iff_exists.mp this
    simp [hx]
  · rw [mapGet_append]
    rename_i h
    have : (mapGet m k).isSome = false := by
      rw [mapGet_isSome_iff]
      exact Bool.eq_false_iff.mpr h
    simp [this, mapGet_cons]

theorem mapGet_mapSet_ne (m : GoMap) (k k' : String) (v : GoVal) (h : k' ≠ k) :
    mapGet (mapSet m k v) k' = mapGet m k' := by
  unfold mapSet
  split
  · rw [mapGet_map_replace]
    simp [Ne.symm h]
  · rw [mapGet_append]
    by_cases hs : (mapGet m k').isSome
    · simp [hs]
    · have h0 : mapGet m k' = none := Option.not_isSome_iff_eq_none.mp hs
      rw [h0]
      simp [mapGet_cons, Ne.symm h, mapGet]

theorem keys_mapSet_replace (m : GoMap) (k : String) (v : GoVal)
    (h : m.any (fun p => p.1 == k) = true) :
    (mapSet m k v).map Prod.fst = m.map Prod.fst := by
  unfold mapSet
  rw [if_pos h, List.map_map]
  apply List.map_congr_left
  intro p _
  by_cases hp : p.1 = k <;> simp [hp]

theorem nodup_keys_mapSet (m : GoMap) (k : String) (v : GoVal)
    (hn : (m.map Prod.fst).Nodup) : ((mapSet m k v).map Prod.fst).Nodup := by
  by_cases h : m.any (fun p => p.1 == k) = true
  · rw [keys_mapSet_replace m k v h]
    exact hn
  · unfold mapSet
    rw [if_neg h]
    have hk : k ∉ m.map Prod.fst := by
      rw [← mapGet_eq_none_iff]
      cases hm : mapGet m k with
      | none => rfl
      | some x =>
        have h2 : (List.any m fun p => p.1 == k) = true := by
          rw [← mapGet_isSome_iff, hm]
          rfl
        exact absurd h2 h
    simp [List.nodup_append, hn, hk]

/-! ### Lemmas about canonicalisation, marshalling and the record map -/

theorem strAppend_left_cancel {s a b : String} (h : s ++ a = s ++ b) : a = b := by
  have h2 := congrArg String.data h
  simp [String.data_append] at h2
  exact String.ext h2

theorem underscore_ne_of_head (s t : String) (h : t.data.head? ≠ some '_') :
    "_" ++ s ≠ t := by
  intro he
  have h2 := congrArg String.data he
  simp [String.data_append] at h2
  apply h
  rw [← h2]
  rfl

theorem canonFields_map_fst (m : GoMap) :
    (canonFields m).map Prod.fst = m.map Prod.fst := by
  induction m with
  | nil => simp [canonFields]
  | cons p m ih =>
    rcases p with ⟨a, b⟩
    simp [canonFields, ih]

theorem mapGet_canonFields (m : GoMap) (k : String) :
    mapGet (canonFields m) k = (mapGet m k).map canon := by
  induction m with
  | nil => simp [canonFields, mapGet]
  | cons p m ih =>
    rcases p with ⟨a, b⟩
    by_cases h : a = k <;> simp [canonFields, mapGet_cons, h, ih]

theorem sortFields_perm (m : List (String × GoVal)) : (sortFields m).Perm m :=
  List.perm_insertionSort _ m

theorem jsonMarshal_obj_eq {m : GoMap} {x : GoVal}
    (h : jsonMarshal (.obj m) = some x) :
    x = .obj (sortFields (canonFields m)) := by
  unfold jsonMarshal at h
  split at h
  · rw [Option.some_inj] at h
    subst h
    simp [canon]
  · exact Option.noConfusion h

theorem mapGet_marshalled_obj {m : GoMap} {w : List (String × GoVal)}
    (hn : (m.map Prod.fst).Nodup)
    (hw : jsonMarshal (.obj m) = some (.obj w)) (k : String) :
    mapGet w k = (mapGet m k).map canon := by
  have hshape := jsonMarshal_obj_eq hw
  have hw2 : w = sortFields (canonFields m) := by
    injection hshape
  subst hw2
  have hperm := sortFields_perm (canonFields m)
  have hncf : ((canonFields m).map Prod.fst).Nodup := by
    rw [canonFields_map_fst]
    exact hn
  have hns : ((sortFields (canonFields m)).map Prod.fst).Nodup :=
    ((hperm.map Prod.fst).nodup_iff).mpr hncf
  rw [mapGet_eq_of_perm hperm hns k, mapGet_canonFields]

theorem mapGet_mapDel_self (m : GoMap) (k : String) :
    mapGet (mapDel m k) k = none := by
  rw [mapGet_eq_none_iff]
  intro hk
  rcases List.mem_map.mp hk with ⟨p, hp, hfst⟩
  have := (List.mem_filter.mp hp).2
  rw [hfst] at this
  simp at this

theorem mapGet_mapDel_ne (m : GoMap) (k k' : String) (h : k' ≠ k) :
    mapGet (mapDel m k) k' = mapGet m k' := by
  induction m with
  | nil => rfl
  | cons p m ih =>
    rcases p with ⟨a, b⟩
    by_cases hak : a = k
    · subst hak
      simp [mapDel, List.filter_cons, mapGet_cons, Ne.symm h] at ih ⊢
      exact ih
    · by_cases hak' : a = k'
      · subst hak'
        simp [mapDel, List.filter_cons, mapGet_cons, hak]
      · simp [mapDel, List.filter_cons, mapGet_cons, hak, hak'] at ih ⊢
        exact ih

theorem filter_ext (l : List (String × GoVal)) (p q : String × GoVal → Bool)
    (h : ∀ x, p x = q x) : l.filter p = l.filter q := by
  induction l with
  | nil => rfl
  | cons x l ih => simp [List.filter_cons, h, ih]

theorem filter_map_replace (m : GoMap) (k : String) (v : GoVal)
    (p : String × GoVal → Bool) (hp : ∀ w, p (k, w) = false) :
    (m.map (fun q => if q.1 == k then (k, v) else q)).filter p = m.filter p := by
  have hfun : (fun q : String × GoVal => if q.1 == k then (k, v) else q)
      = (fun q => if q.1 = k then (k, v) else q) := by
    funext q
    by_cases h : q.1 = k <;> simp [h]
  rw [hfun]
  induction m with
  | nil => rfl
  | cons q m ih =>
    rcases q with ⟨a, b⟩
    by_cases hak : a = k
    · subst hak
      simp [List.filter_cons, hp, ih]
    · simp [List.filter_cons, hak, ih]

theorem filter_mapSet (m : GoMap) (k : String) (v : GoVal)
    (p : String × GoVal → Bool) (hp : ∀ w, p (k, w) = false) :
    (mapSet m k v).filter p = m.filter p := by
  unfold mapSet
  split
  · exact filter_map_replace m k v p hp
  · simp [List.filter_append, List.filter_cons, hp]

theorem tripleDel_eq_filter (M : GoMap) :
    mapDel (mapDel (mapDel M "level") "time") "message"
      = M.filter (fun q => !(q.1 == "level" || q.1 == "time" || q.1 == "message")) := by
  unfold mapDel
  rw [List.filter_filter, List.filter_filter]
  apply filter_ext
  intro x
  cases hx1 : (x.1 == "level") <;> cases hx2 : (x.1 == "time") <;>
    cases hx3 : (x.1 == "message") <;> simp_all

theorem mapGet_gelfFold_preserve (fields : GoMap) (g : GoMap) (k : String)
    (h : ∀ p ∈ fields, ("_" ++ p.1) ≠ k) :
    mapGet (fields.foldl (fun g p => mapSet g ("_" ++ p.1) (gelfExtra p.2)) g) k
      = mapGet g k := by
  induction fields generalizing g with
  | nil => rfl
  | cons p fields ih =>
    rw [List.foldl_cons, ih _ (fun q hq => h q (List.mem_cons_of_mem _ hq))]
    exact mapGet_mapSet_ne _ _ _ _
      (fun he => h p (List.mem_cons_self _ _) he.symm)

theorem mapGet_gelfFold_mem (fields : GoMap) (g : GoMap) (k : String) (v : GoVal)
    (hn : (fields.map Prod.fst).Nodup) (hm : (k, v) ∈ fields) :
    mapGet (fields.foldl (fun g p => mapSet g ("_" ++ p.1) (gelfExtra p.2)) g) ("_" ++ k)
      = some (gelfExtra v) := by
  induction fields generalizing g with
  | nil => simp at hm
  | cons p fields ih =>
    rcases List.mem_cons.mp hm with heq | hmem
    · cases heq
      rw [List.foldl_cons, mapGet_gelfFold_preserve]
      · exact mapGet_mapSet_self _ _ _
      · intro q hq he
        have hq1 : q.1 = k := strAppend_left_cancel he
        have hk : q.1 ∈ fields.map Prod.fst := List.mem_map_of_mem Prod.fst hq
        rw [hq1] at hk
        exact (List.nodup_cons.mp hn).1 hk
    · rw [List.foldl_cons]
      exact ih _ (List.nodup_cons.mp hn).2 hmem

theorem nodup_keys_gelfFold (fields : GoMap) (g : GoMap)
    (hg : (g.map Prod.fst).Nodup) :
    ((fields.foldl (fun g p => mapSet g ("_" ++ p.1) (gelfExtra p.2)) g).map Prod.fst).Nodup := by
  induction fields generalizing g with
  | nil => exact hg
  | cons p fields ih =>
    rw [List.foldl_cons]
    exact ih _ (nodup_keys_mapSet _ _ _ hg)

theorem gelfRecordMap_keys_nodup (message host : String) (gl : Int) (ts : ℚ)
    (fm : Option GoVal) (fields : GoMap) :
    ((gelfRecordMap message host gl ts fm fields).map Prod.fst).Nodup := by
  apply nodup_keys_gelfFold
  show (["version", "host", "short_message", "full_message", "timestamp", "level"] :
          List String).Nodup
  decide

/-! ### Inversion lemmas for the processor and the encoder -/

theorem processOk_inv {q : ℚ} {fields : GoMap} {gl : Int} {ts : ℚ}
    {fm : Option GoVal} {rest : GoMap}
    (h : ProcessZerologFields q fields = .ok gl ts fm rest) :
    ∃ t lvl,
      mapGet (withTimeDefault q fields) "time" = some (.num t) ∧
      mapGet (withLevelDefault (withTimeDefault q fields)) "level" = some (.str lvl) ∧
      gl = ConvertZerologLevelToGraylog lvl ∧
      ts = ratDiv t 1000 ∧
      fm = jsonMarshal (.obj (processedMap q fields lvl)) ∧
      rest = mapDel (mapDel (mapDel (processedMap q fields lvl) "level") "time") "message" := by
  unfold ProcessZerologFields at h
  split at h
  · rename_i t ht
    split at h
    · rename_i lvl hlvl
      cases h
      exact ⟨t, lvl, ht, hlvl, rfl, rfl, rfl, rfl⟩
    · exact ProcResult.noConfusion h
    · exact ProcResult.noConfusion h
  · exact ProcResult.noConfusion h
  · exact ProcResult.noConfusion h

theorem formatOk_inv {message host : String} {fields : GoMap} {q : ℚ} {w : GoVal}
    (h : formatGELFMessage message fields host q = .ok w) :
    ∃ gl ts fm rest,
      ProcessZerologFields q fields = .ok gl ts fm rest ∧
      jsonMarshal (.obj (gelfRecordMap message host gl ts fm rest)) = some w := by
  unfold formatGELFMessage at h
  split at h
  · exact FmtResult.noConfusion h
  · exact FmtResult.noConfusion h
  · rename_i gl ts fm rest hp
    split at h
    · rename_i w2 hw
      cases h
      exact ⟨gl, ts, fm, rest, hp, hw⟩
    · exact FmtResult.noConfusion h

/-! ### Helper predicates and facts used by the claim theorems -/

/-- Does the value model a Go `string`?  (Mirrors the `.(string)` type
assertion of `ProcessZerologFields`.) -/
def isStrVal : GoVal → Bool
  | .str _ => true
  | _ => false

/-- Is the `time` entry absent or a `float64` (so that the `time` validation
of `ProcessZerologFields` passes)? -/
def timeAbsentOrNum (m : GoMap) : Bool :=
  match mapGet m "time" with
  | none => true
  | some (.num _) => true
  | _ => false

theorem mapGet_withTimeDefault_level (q : ℚ) (m : GoMap) :
    mapGet (withTimeDefault q m) "level" = mapGet m "level" := by
  unfold withTimeDefault
  split
  · rfl
  · exact mapGet_mapSet_ne _ _ _ _ (by decide)

theorem mapGet_withTimeDefault_message (q : ℚ) (m : GoMap) :
    mapGet (withTimeDefault q m) "message" = mapGet m "message" := by
  unfold withTimeDefault
  split
  · rfl
  · exact mapGet_mapSet_ne _ _ _ _ (by decide)

theorem mapGet_withLevelDefault_message (m : GoMap) :
    mapGet (withLevelDefault m) "message" = mapGet m "message" := by
  unfold withLevelDefault
  split
  · rfl
  · exact mapGet_mapSet_ne _ _ _ _ (by decide)

theorem withTimeDefault_time_of_ok {q : ℚ} {m : GoMap}
    (h : timeAbsentOrNum m = true) :
    ∃ x, mapGet (withTimeDefault q m) "time" = some (.num x)
      ∧ (mapGet m "time" = none → x = q)
      ∧ (∀ y, mapGet m "time" = some (.num y) → x = y) := by
  unfold timeAbsentOrNum at h
  unfold withTimeDefault
  cases hm : mapGet m "time" with
  | none =>
    exact ⟨q, by simp [mapGet_mapSet_self], fun _ => rfl,
      fun y hy => Option.noConfusion hy⟩
  | some u =>
    rw [hm] at h
    cases u with
    | num x =>
      exact ⟨x, by simp [hm], fun hn => Option.noConfusion hn,
        fun y hy => by cases hy; rfl⟩
    | str s => simp at h
    | bool b => simp at h
    | null => simp at h
    | arr xs => simp at h
    | obj fs => simp at h
    | goOnly n => simp at h
    | jsonStr t => simp at h

theorem processPanics_of_nonstring_level {q : ℚ} {fields : GoMap} {v : GoVal}
    (hlvl : mapGet fields "level" = some v)
    (hstr : isStrVal v = false)
    (htime : timeAbsentOrNum fields = true) :
    ProcessZerologFields q fields = .panics := by
  obtain ⟨x, hx, -, -⟩ := withTimeDefault_time_of_ok (q := q) htime
  have hlvl2 : mapGet (withTimeDefault q fields) "level" = some v := by
    rw [mapGet_withTimeDefault_level]
    exact hlvl
  have hld : withLevelDefault (withTimeDefault q fields) = withTimeDefault q fields := by
    unfold withLevelDefault
    rw [hlvl2]
    rfl
  unfold ProcessZerologFields
  rw [hx, hld, hlvl2]
  cases v with
  | str s => simp [isStrVal] at hstr
  | num y => rfl
  | bool b => rfl
  | null => rfl
  | arr xs => rfl
  | obj fs => rfl
  | goOnly n => rfl
  | jsonStr t => rfl

theorem ensureConnection_probe_ok {l : Logger} {c : Nat} {t : NetTrace} {ws : List Bool}
    (hc : l.conn = some c) (hw : t.writes = true :: ws) :
    l.ensureConnection t = (.ret none, l, { t with writes := ws }) := by
  unfold Logger.ensureConnection connWrite
  simp [hc, hw]

theorem write_reduces_to_log {l : Logger} {p : InBuf} {q : ℚ} {t : NetTrace}
    {fields : GoMap} {s : String} {c : Nat} {ws : List Bool}
    (hdec : p.decoded = some fields)
    (hmsg : mapGet fields "message" = some (.str s))
    (hc : l.conn = some c) (hw : t.writes = true :: ws) :
    GelfWriter.Write l p q t =
      (match l.Log s fields q { t with writes := ws } with
       | (.panics, l2, t2) => (.panics, l2, t2)
       | (.hangs, l2, t2) => (.hangs, l2, t2)
       | (.fails e, l2, t2) => (.ret 0 (some e), l2, t2)
       | (.ok, l2, t2) => (.ret p.len none, l2, t2)) := by
  unfold GelfWriter.Write
  simp only [hdec, hmsg, ensureConnection_probe_ok hc hw]

/-! ### The claim theorems -/

/-- **C10.**  For every event map containing a `level` key whose value is not
a string (for example the JSON number 5) and whose `time` value is absent or
numeric, `ProcessZerologFields` evaluates the unchecked type assertion
`fields["level"].(string)` and panics, so `GelfWriter.Write` on such an input
(with the liveness probe passing, so that the call reaches the send path)
crashes instead of returning an error. -/
theorem nonstring_level_panics
    (q : ℚ) (fields : GoMap) (v : GoVal)
    (l : Logger) (c : Nat) (t : NetTrace) (ws : List Bool) (p : InBuf) (s : String)
    (hlvl : mapGet fields "level" = some v)
    (hstr : isStrVal v = false)
    (htime : timeAbsentOrNum fields = true)
    (hdec : p.decoded = some fields)
    (hmsg : mapGet fields "message" = some (.str s))
    (hconn : l.conn = some c)
    (hw : t.writes = true :: ws) :
    ProcessZerologFields q fields = .panics ∧
    (GelfWriter.Write l p q t).1 = .panics := by
  have hproc := processPanics_of_nonstring_level (q := q) hlvl hstr htime
  refine ⟨hproc, ?_⟩
  rw [write_reduces_to_log hdec hmsg hconn hw]
  unfold Logger.Log formatGELFMessage
  rw [hproc]

/-- Witness for **C10** at the concrete input
`{"message":"m","level":5}`. -/
theorem nonstring_level_panics_witness :
    ProcessZerologFields 0 [("message", .str "m"), ("level", .num 5)] = .panics ∧
    (GelfWriter.Write ⟨some 0, "addr", false, "host"⟩
      ⟨30, some [("message", .str "m"), ("level", .num 5)]⟩ 0
      ⟨[], [true], 1⟩).1 = .panics :=
  nonstring_level_panics 0 [("message", .str "m"), ("level", .num 5)] (.num 5)
    ⟨some 0, "addr", false, "host"⟩ 0 ⟨[], [true], 1⟩ []
    ⟨30, some [("message", .str "m"), ("level", .num 5)]⟩ "m"
    (by decide) (by decide) (by decide) (by decide) (by decide) (by decide) (by decide)

/-- **C1** (amended).  Every return of `GelfWriter.Write` that is not a Go
run-time panic is either `(len p, nil)` on success — the length of the
original input buffer, never of the encoded record — or `(0, err)` on
failure; a failed call never reports bytes consumed.  (The original claim is
refuted by the panic path, see the counterexample.) -/
theorem write_nonpanic_return_contract (l : Logger) (p : InBuf) (q : ℚ) (t : NetTrace) :
    match (GelfWriter.Write l p q t).1 with
    | .panics => True
    | .hangs => True
    | .ret n none => n = p.len
    | .ret n (some _) => n = 0 := by
  unfold GelfWriter.Write
  cases hdec : p.decoded with
  | none => simp
  | some logMsg =>
    cases hmsg : mapGet logMsg "message" with
    | none => simp [hmsg]
    | some v =>
      cases v with
      | str s =>
        rcases he : l.ensureConnection t with ⟨err, l1, t1⟩
        cases err with
        | hangs => simp [hmsg, he]
        | ret e =>
          cases e with
          | some e => simp [hmsg, he]
          | none =>
            rcases hl : l1.Log s logMsg q t1 with ⟨res, l2, t2⟩
            cases res <;> simp [hmsg, he, hl]
      | num y => simp [hmsg]
      | bool b => simp [hmsg]
      | null => simp [hmsg]
      | arr xs => simp [hmsg]
      | obj fs => simp [hmsg]
      | goOnly n => simp [hmsg]
      | jsonStr u => simp [hmsg]

/-- Counterexample for **C1** as stated: on the input
`{"message":"m","level":5}` the call fails inside field processing but does
not return `(0, err)` — it panics. -/
theorem write_panics_on_numeric_level :
    (GelfWriter.Write ⟨some 0, "addr", false, "host"⟩
      ⟨30, some [("message", .str "m"), ("level", .num 5)]⟩ 0
      ⟨[], [true], 1⟩).1 = .panics := by decide

/-- **C3** (code bug).  With an existing connection, a failing zero-length
probe and a redial whose dial succeeds, `ensureConnection` does not return
success: `l.connect()` re-acquires the `connLock` that `ensureConnection`
already holds by `defer`, and Go's `sync.Mutex` is not reentrant, so the
call blocks forever inside `connect` — before `l.conn` is updated (the
second conjunct shows the stale connection 0 still installed).  The caller
never proceeds to send. -/
theorem ensureConnection_deadlocks_after_successful_redial :
    (Logger.ensureConnection ⟨some 0, "addr", false, "host"⟩
        ⟨[true], [false], 1⟩).1 = .hangs ∧
    (Logger.ensureConnection ⟨some 0, "addr", false, "host"⟩
        ⟨[true], [false], 1⟩).2.1.conn = some 0 := by
  constructor <;> rfl

/-- **C9** (code bug).  First call with the listener closed (probe passes
on the stale connection, the send fails, the single reconnect's dial
fails): `Write` returns `(0, dial error)` with count 0, as the claim
states, keeping the stale connection handle.  After the listener is
reopened (dials succeed; writes on a fresh connection would succeed) the
next call does not complete successfully in either possible probe outcome:
if the zero-length probe on the stale connection fails,
`ensureConnection`'s redial deadlocks on the re-acquired non-reentrant
`connLock` inside `connect`; if the probe passes, the send on the stale
connection fails and `Log`'s reconnect deadlocks the same way.  The
claimed recovery never happens. -/
theorem write_reopen_scenario_deadlocks :
    (GelfWriter.Write ⟨some 0, "addr", false, "host"⟩
        ⟨20, some [("message", .str "m")]⟩ 0 ⟨[false], [true, false], 1⟩).1
      = .ret 0 (some "dial error") ∧
    ((GelfWriter.Write ⟨some 0, "addr", false, "host"⟩
        ⟨20, some [("message", .str "m")]⟩ 0 ⟨[false], [true, false], 1⟩).2.1.conn
      = some 0) ∧
    (GelfWriter.Write
        (GelfWriter.Write ⟨some 0, "addr", false, "host"⟩
          ⟨20, some [("message", .str "m")]⟩ 0 ⟨[false], [true, false], 1⟩).2.1
        ⟨20, some [("message", .str "m")]⟩ 0 ⟨[true], [false, true, true], 1⟩).1
      = .hangs ∧
    (GelfWriter.Write
        (GelfWriter.Write ⟨some 0, "addr", false, "host"⟩
          ⟨20, some [("message", .str "m")]⟩ 0 ⟨[false], [true, false], 1⟩).2.1
        ⟨20, some [("message", .str "m")]⟩ 0 ⟨[true], [true, false, true], 1⟩).1
      = .hangs := by
  refine ⟨?_, ?_, ?_, ?_⟩ <;> decide

/-- **C4** (code bug).  When the first write of the payload fails inside
`Logger.Log`, the source attempts exactly one reconnect, but the claimed
retry of the write never happens: if the reconnect's dial succeeds,
`connect` blocks forever on the `connLock` that `Log` still holds by
`defer` (first two conjuncts: the call hangs and the queued retry-write
outcome `true` is left unconsumed); if the dial fails, the dial error is
returned, again with no retry write consumed (last two conjuncts).  Only
the reconnect-failure half of the claim matches the source. -/
theorem log_reconnect_success_deadlocks_no_retry :
    (Logger.Log ⟨some 0, "addr", false, "h"⟩ "m" [("message", .str "m")] 0
        ⟨[true], [false, true], 1⟩).1 = .hangs ∧
    (Logger.Log ⟨some 0, "addr", false, "h"⟩ "m" [("message", .str "m")] 0
        ⟨[true], [false, true], 1⟩).2.2.writes = [true] ∧
    (Logger.Log ⟨some 0, "addr", false, "h"⟩ "m" [("message", .str "m")] 0
        ⟨[false], [false, true], 1⟩).1 = .fails "dial error" ∧
    (Logger.Log ⟨some 0, "addr", false, "h"⟩ "m" [("message", .str "m")] 0
        ⟨[false], [false, true], 1⟩).2.2.writes = [true] := by
  refine ⟨?_, ?_, ?_, ?_⟩ <;> decide

/-- Is the `level` entry absent or a string (so that the unchecked type
assertion of `ProcessZerologFields` does not panic)? -/
def levelAbsentOrStr (m : GoMap) : Bool :=
  match mapGet m "level" with
  | none => true
  | some (.str _) => true
  | _ => false

theorem process_ok_of_valid {q : ℚ} {fields : GoMap} {x : ℚ}
    (hx : mapGet (withTimeDefault q fields) "time" = some (.num x))
    (hl : levelAbsentOrStr fields = true) :
    ∃ lvl, ProcessZerologFields q fields
      = .ok (ConvertZerologLevelToGraylog lvl) (ratDiv x 1000)
          (jsonMarshal (.obj (processedMap q fields lvl)))
          (mapDel (mapDel (mapDel (processedMap q fields lvl) "level") "time")
            "message") := by
  have hwt := mapGet_withTimeDefault_level q fields
  unfold levelAbsentOrStr at hl
  have hlvl : ∃ lvl,
      mapGet (withLevelDefault (withTimeDefault q fields)) "level"
        = some (.str lvl) := by
    cases hlv : mapGet fields "level" with
    | none =>
      refine ⟨"info", ?_⟩
      unfold withLevelDefault
      rw [hwt, hlv]
      simp [mapGet_mapSet_self]
    | some v =>
      rw [hlv] at hl
      cases v with
      | str s =>
        refine ⟨s, ?_⟩
        have h2 : mapGet (withTimeDefault q fields) "level" = some (.str s) :=
          hwt.trans hlv
        unfold withLevelDefault
        rw [h2]
        simp [h2]
      | num y => simp at hl
      | bool b => simp at hl
      | null => simp at hl
      | arr xs => simp at hl
      | obj fs => simp at hl
      | goOnly n => simp at hl
      | jsonStr u => simp at hl
  obtain ⟨lvl, hlvl⟩ := hlvl
  refine ⟨lvl, ?_⟩
  unfold ProcessZerologFields
  rw [hx, hlvl]

theorem process_fails_of_nonnum_time {q : ℚ} {fields : GoMap}
    (hs : (mapGet fields "time").isSome = true)
    (hb : timeAbsentOrNum fields = false) :
    ProcessZerologFields q fields
      = .fails "field `time` is not of type loat64; invalid log message format" := by
  have hid : withTimeDefault q fields = fields := by
    unfold withTimeDefault
    rw [hs]
    rfl
  unfold timeAbsentOrNum at hb
  unfold ProcessZerologFields
  rw [hid]
  cases hm : mapGet fields "time" with
  | none =>
    simp [hm] at hs
  | some v =>
    rw [hm] at hb
    cases v with
    | num y => simp at hb
    | str s => rfl
    | bool b => rfl
    | null => rfl
    | arr xs => rfl
    | obj fs => rfl
    | goOnly n => rfl
    | jsonStr u => rfl

/-- Counterexample for **C6** as stated: on the decoded event map
`{"message":"m","level":5}` (a string `message`, `time` absent), the field
processor does not insert the time and succeed — it panics on the unchecked
`level` type assertion. -/
theorem time_default_claim_counterexample :
    mapGet [("message", GoVal.str "m"), ("level", GoVal.num 5)] "time" = none ∧
    ProcessZerologFields 0 [("message", .str "m"), ("level", .num 5)] = .panics := by
  constructor <;> decide

/-- **C6** (amended).  For every decoded event map with a string `message`:
if `time` is present and not a number, `ProcessZerologFields` returns the
validation error and `GelfWriter.Write` (reached over a live connection)
returns `(0, that error)`; if `time` is absent — and, as the counterexample
forces, any present `level` value is a string — the processor inserts the
current millisecond time `q` and succeeds with timestamp `q / 1000`; if
`time` is a number `x` it succeeds with timestamp `x / 1000`
(`ratDiv` is division on `ℚ`, see `ratDiv_eq_div`). -/
theorem time_validation_and_default (fields : GoMap) (q : ℚ) :
    ((mapGet fields "time").isSome = true → timeAbsentOrNum fields = false →
      ProcessZerologFields q fields
        = .fails "field `time` is not of type loat64; invalid log message format") ∧
    (∀ (l : Logger) (c : Nat) (t : NetTrace) (ws : List Bool) (p : InBuf) (s : String),
      p.decoded = some fields →
      mapGet fields "message" = some (.str s) →
      l.conn = some c → t.writes = true :: ws →
      (mapGet fields "time").isSome = true → timeAbsentOrNum fields = false →
      (GelfWriter.Write l p q t).1
        = .ret 0 (some "field `time` is not of type loat64; invalid log message format")) ∧
    (mapGet fields "time" = none → levelAbsentOrStr fields = true →
      ∃ gl fm rest, ProcessZerologFields q fields = .ok gl (ratDiv q 1000) fm rest) ∧
    (∀ x : ℚ, mapGet fields "time" = some (.num x) → levelAbsentOrStr fields = true →
      ∃ gl fm rest, ProcessZerologFields q fields = .ok gl (ratDiv x 1000) fm rest) := by
  refine ⟨?_, ?_, ?_, ?_⟩
  · intro hs hb
    exact process_fails_of_nonnum_time hs hb
  · intro l c t ws p s hdec hmsg hc hw hs hb
    have hfail := process_fails_of_nonnum_time (q := q) hs hb
    rw [write_reduces_to_log hdec hmsg hc hw]
    unfold Logger.Log formatGELFMessage
    rw [hfail]
  · intro hnone hl
    have ht : timeAbsentOrNum fields = true := by
      unfold timeAbsentOrNum
      rw [hnone]
    obtain ⟨x, hx, hxq, -⟩ := withTimeDefault_time_of_ok (q := q) ht
    rw [hxq hnone] at hx
    obtain ⟨lvl, hok⟩ := process_ok_of_valid hx hl
    exact ⟨_, _, _, hok⟩
  · intro x hsome hl
    have ht : timeAbsentOrNum fields = true := by
      unfold timeAbsentOrNum
      rw [hsome]
    obtain ⟨y, hy, -, hyx⟩ := withTimeDefault_time_of_ok (q := q) ht
    rw [hyx x hsome] at hy
    obtain ⟨lvl, hok⟩ := process_ok_of_valid hy hl
    exact ⟨_, _, _, hok⟩

/-- Witness for **C6**: the non-numeric-time input of the specification,
`{"message":"info","time":"2024-01-01T01:01:01"}`, gives the validation
error with count 0, and the input `{"message":"m"}` (time absent) succeeds
with timestamp `1000 / 1000 = 1` when the current time is 1000 ms. -/
theorem time_validation_and_default_witness :
    (GelfWriter.Write ⟨some 0, "addr", false, "host"⟩
        ⟨48, some [("message", .str "info"), ("time", .str "2024-01-01T01:01:01")]⟩
        0 ⟨[], [true], 1⟩).1
      = .ret 0 (some "field `time` is not of type loat64; invalid log message format") ∧
    (∃ gl fm rest,
      ProcessZerologFields 1000 [("message", .str "m")] = .ok gl (ratDiv 1000 1000) fm rest) := by
  constructor
  · exact (time_validation_and_default
      [("message", .str "info"), ("time", .str "2024-01-01T01:01:01")] 0).2.1
      ⟨some 0, "addr", false, "host"⟩ 0 ⟨[], [true], 1⟩ []
      ⟨48, some [("message", .str "info"), ("time", .str "2024-01-01T01:01:01")]⟩
      "info" (by decide) (by decide) (by decide) (by decide) (by decide) (by decide)
  · exact (time_validation_and_default [("message", .str "m")] 1000).2.2.1
      (by decide) (by decide)

theorem gelfRecord_lookup_base {message host : String} {gl : Int} {ts : ℚ}
    {fm : Option GoVal} {fields : GoMap} {w : List (String × GoVal)}
    (hw : jsonMarshal (.obj (gelfRecordMap message host gl ts fm fields))
      = some (.obj w)) :
    mapGet w "version" = some (.str "1.1") ∧
    mapGet w "host" = some (.str host) ∧
    mapGet w "short_message" = some (.str message) ∧
    mapGet w "full_message" = some (.jsonStr fm) ∧
    mapGet w "timestamp" = some (.num ts) ∧
    mapGet w "level" = some (.num (gl : ℚ)) := by
  have hn := gelfRecordMap_keys_nodup message host gl ts fm fields
  have hpres : ∀ k : String, k.data.head? ≠ some '_' →
      mapGet (gelfRecordMap message host gl ts fm fields) k
        = mapGet (gelfBase message host gl ts fm) k := by
    intro k hk
    unfold gelfRecordMap
    exact mapGet_gelfFold_preserve _ _ _ (fun p _ => underscore_ne_of_head _ _ hk)
  refine ⟨?_, ?_, ?_, ?_, ?_, ?_⟩ <;>
    · rw [mapGet_marshalled_obj hn hw, hpres _ (by decide)]
      rfl

theorem gelfRecord_lookup_extra {message host : String} {gl : Int} {ts : ℚ}
    {fm : Option GoVal} {fields : GoMap} {w : List (String × GoVal)}
    {k : String} {v : GoVal}
    (hw : jsonMarshal (.obj (gelfRecordMap message host gl ts fm fields))
      = some (.obj w))
    (hnf : (fields.map Prod.fst).Nodup) (hkv : (k, v) ∈ fields) :
    mapGet w ("_" ++ k) = some (canon (gelfExtra v)) := by
  have hn := gelfRecordMap_keys_nodup message host gl ts fm fields
  rw [mapGet_marshalled_obj hn hw]
  unfold gelfRecordMap
  rw [mapGet_gelfFold_mem _ _ _ _ hnf hkv]
  rfl

theorem gelfRecord_lookup_no_extra {message host : String} {gl : Int} {ts : ℚ}
    {fm : Option GoVal} {fields : GoMap} {w : List (String × GoVal)}
    {k : String}
    (hw : jsonMarshal (.obj (gelfRecordMap message host gl ts fm fields))
      = some (.obj w))
    (hk : ∀ p ∈ fields, p.1 ≠ k)
    (hbase : mapGet (gelfBase message host gl ts fm) ("_" ++ k) = none) :
    mapGet w ("_" ++ k) = none := by
  have hn := gelfRecordMap_keys_nodup message host gl ts fm fields
  rw [mapGet_marshalled_obj hn hw]
  unfold gelfRecordMap
  rw [mapGet_gelfFold_preserve _ _ _
    (fun p hp he => hk p hp (strAppend_left_cancel he))]
  rw [hbase]
  rfl

theorem processOk_rest_eq {q : ℚ} {fields : GoMap} {gl : Int} {ts : ℚ}
    {fm : Option GoVal} {rest : GoMap}
    (h : ProcessZerologFields q fields = .ok gl ts fm rest) :
    rest = fields.filter
      (fun p => !(p.1 == "level" || p.1 == "time" || p.1 == "message")) := by
  obtain ⟨t, lvl, ht, hlvl, -, -, -, hrest⟩ := processOk_inv h
  subst hrest
  rw [tripleDel_eq_filter]
  unfold processedMap
  rw [filter_mapSet _ _ _ _ (fun v => rfl)]
  have h1 : (withLevelDefault (withTimeDefault q fields)).filter
      (fun p => !(p.1 == "level" || p.1 == "time" || p.1 == "message"))
      = (withTimeDefault q fields).filter
        (fun p => !(p.1 == "level" || p.1 == "time" || p.1 == "message")) := by
    unfold withLevelDefault
    split
    · rfl
    · exact filter_mapSet _ _ _ _ (fun v => rfl)
  have h2 : (withTimeDefault q fields).filter
      (fun p => !(p.1 == "level" || p.1 == "time" || p.1 == "message"))
      = fields.filter
        (fun p => !(p.1 == "level" || p.1 == "time" || p.1 == "message")) := by
    unfold withTimeDefault
    split
    · rfl
    · exact filter_mapSet _ _ _ _ (fun v => rfl)
  rw [h1, h2]

/-- Counterexample for **C2** as stated: on the event map
`{"level":"error","message":"m","time":5}` the `fullMessage` produced by the
field processor serializes `level` as the number 3 — it is not the JSON
serialization of the original, unmodified event map (whose `level` is the
string `"error"`). -/
theorem full_message_not_original_counterexample :
    ProcessZerologFields 0
        [("level", .str "error"), ("message", .str "m"), ("time", .num 5)]
      = .ok 3 (ratDiv 5 1000)
          (some (.obj [("level", .num 3), ("message", .str "m"), ("time", .num 5)]))
          [] ∧
    jsonMarshal (.obj [("level", .str "error"), ("message", .str "m"), ("time", .num 5)])
      = some (.obj [("level", .str "error"), ("message", .str "m"), ("time", .num 5)]) ∧
    (some (.obj [("level", .num 3), ("message", .str "m"), ("time", .num 5)])
        : Option GoVal)
      ≠ some (.obj [("level", .str "error"), ("message", .str "m"), ("time", .num 5)]) := by
  refine ⟨?_, ?_, ?_⟩ <;> decide

/-- **C2** (amended).  `full_message` is the JSON serialization not of the
original event map but of the map *after* the `time` default has been
inserted and after `level` has been replaced by its numeric severity (and
before `level`/`time`/`message` are deleted): whenever the field processor
succeeds there is a level name `lvl` (the map's `level` string, or `"info"`
when it was absent) such that `fullMessage` is the serialization of
`processedMap nowMs fields lvl`, and the wire record's `full_message` slot
holds exactly that serialization. -/
theorem full_message_post_mutation (q : ℚ) (fields : GoMap) (gl : Int) (ts : ℚ)
    (fm : Option GoVal) (rest : GoMap)
    (h : ProcessZerologFields q fields = .ok gl ts fm rest) :
    ∃ lvl,
      mapGet (withLevelDefault (withTimeDefault q fields)) "level"
        = some (.str lvl) ∧
      gl = ConvertZerologLevelToGraylog lvl ∧
      fm = jsonMarshal (.obj (processedMap q fields lvl)) ∧
      (∀ (message host : String) (w : List (String × GoVal)),
        formatGELFMessage message fields host q = .ok (.obj w) →
        mapGet w "full_message" = some (.jsonStr fm)) := by
  obtain ⟨t, lvl, ht, hlvl, hgl, hts, hfm, hrest⟩ := processOk_inv h
  refine ⟨lvl, hlvl, hgl, hfm, ?_⟩
  intro message host w hf
  obtain ⟨gl2, ts2, fm2, rest2, hp2, hw⟩ := formatOk_inv hf
  rw [h] at hp2
  cases hp2
  exact (gelfRecord_lookup_base hw).2.2.2.1

/-- Witness for **C2** at the input `{"message":"m"}` with current time
2000 ms. -/
theorem full_message_post_mutation_witness :
    ∃ lvl,
      mapGet (withLevelDefault (withTimeDefault 2000 [("message", GoVal.str "m")]))
          "level" = some (.str lvl) ∧
      (6 : Int) = ConvertZerologLevelToGraylog lvl ∧
      (some (.obj [("level", .num 6), ("message", .str "m"), ("time", .num 2000)])
          : Option GoVal)
        = jsonMarshal (.obj (processedMap 2000 [("message", GoVal.str "m")] lvl)) ∧
      (∀ (message host : String) (w : List (String × GoVal)),
        formatGELFMessage message [("message", GoVal.str "m")] host 2000 = .ok (.obj w) →
        mapGet w "full_message"
          = some (.jsonStr (some (.obj
              [("level", .num 6), ("message", .str "m"), ("time", .num 2000)])))) :=
  full_message_post_mutation 2000 [("message", GoVal.str "m")] 6 2
    (some (.obj [("level", .num 6), ("message", .str "m"), ("time", .num 2000)]))
    [] (by decide)

/-- **C5.**  In every wire record produced by the encoder the reserved keys
`version` (the constant `"1.1"`), `host`, `short_message`, `full_message`,
`timestamp` and `level` are present with exactly the encoder's own values —
event fields can never override them, since every promoted field key starts
with `_` — and every key `k` of the processed event map appears as `"_" ++ k`
with booleans rendered as the strings `"true"`/`"false"` and all other
values passed through unchanged (up to the key-sorting of JSON object
serialization, `canon`). -/
theorem wire_record_fields
    (message host : String) (fields : GoMap) (q : ℚ)
    (gl : Int) (ts : ℚ) (fm : Option GoVal) (rest : GoMap)
    (w : List (String × GoVal))
    (hnf : (fields.map Prod.fst).Nodup)
    (hp : ProcessZerologFields q fields = .ok gl ts fm rest)
    (hf : formatGELFMessage message fields host q = .ok (.obj w)) :
    mapGet w "version" = some (.str "1.1") ∧
    mapGet w "host" = some (.str host) ∧
    mapGet w "short_message" = some (.str message) ∧
    mapGet w "full_message" = some (.jsonStr fm) ∧
    mapGet w "timestamp" = some (.num ts) ∧
    mapGet w "level" = some (.num (gl : ℚ)) ∧
    (∀ k v, (k, v) ∈ rest → mapGet w ("_" ++ k) = some (canon (gelfExtra v))) := by
  obtain ⟨gl2, ts2, fm2, rest2, hp2, hw⟩ := formatOk_inv hf
  rw [hp] at hp2
  cases hp2
  have hrest := processOk_rest_eq hp
  have hrn : (rest.map Prod.fst).Nodup := by
    rw [hrest]
    exact List.Nodup.sublist ((List.filter_sublist _).map Prod.fst) hnf
  obtain ⟨h1, h2, h3, h4, h5, h6⟩ := gelfRecord_lookup_base hw
  exact ⟨h1, h2, h3, h4, h5, h6, fun k v hkv => gelfRecord_lookup_extra hw hrn hkv⟩

/-- Witness for **C5** at message `"m"`, host `"h"`, event map
`{"a":true}`, current time 2000 ms: all six reserved entries and the
stringified boolean extension field. -/
theorem wire_record_fields_witness :
    mapGet [("_a", GoVal.str "true"),
       ("full_message", GoVal.jsonStr (some (.obj
           [("a", .bool true), ("level", .num 6), ("time", .num 2000)]))),
       ("host", GoVal.str "h"), ("level", GoVal.num 6),
       ("short_message", GoVal.str "m"), ("timestamp", GoVal.num 2),
       ("version", GoVal.str "1.1")] "version" = some (.str "1.1") ∧
    mapGet [("_a", GoVal.str "true"),
       ("full_message", GoVal.jsonStr (some (.obj
           [("a", .bool true), ("level", .num 6), ("time", .num 2000)]))),
       ("host", GoVal.str "h"), ("level", GoVal.num 6),
       ("short_message", GoVal.str "m"), ("timestamp", GoVal.num 2),
       ("version", GoVal.str "1.1")] "_a" = some (canon (gelfExtra (.bool true))) := by
  have h := wire_record_fields "m" "h" [("a", .bool true)] 2000 6 2
    (some (.obj [("a", .bool true), ("level", .num 6), ("time", .num 2000)]))
    [("a", .bool true)]
    [("_a", GoVal.str "true"),
     ("full_message", GoVal.jsonStr (some (.obj
         [("a", .bool true), ("level", .num 6), ("time", .num 2000)]))),
     ("host", GoVal.str "h"), ("level", GoVal.num 6),
     ("short_message", GoVal.str "m"), ("timestamp", GoVal.num 2),
     ("version", GoVal.str "1.1")]
    (by decide) (by decide) (by decide)
  exact ⟨h.1, h.2.2.2.2.2.2 "a" (.bool true) (by decide)⟩

/-- **C7.**  Whenever the field processor succeeds, the mutated map is
exactly the original map with the `level`, `time` and `message` entries
removed — every other key/value pair is unchanged — and consequently the
wire record built from it contains no `_level`, `_time` or `_message`
entry. -/
theorem processed_fields_drop_reserved (q : ℚ) (fields : GoMap) (gl : Int)
    (ts : ℚ) (fm : Option GoVal) (rest : GoMap)
    (h : ProcessZerologFields q fields = .ok gl ts fm rest) :
    rest = fields.filter
      (fun p => !(p.1 == "level" || p.1 == "time" || p.1 == "message")) ∧
    mapGet rest "level" = none ∧
    mapGet rest "time" = none ∧
    mapGet rest "message" = none ∧
    (∀ (message host : String) (w : List (String × GoVal)),
      formatGELFMessage message fields host q = .ok (.obj w) →
      mapGet w "_level" = none ∧ mapGet w "_time" = none ∧
      mapGet w "_message" = none) := by
  have hrest := processOk_rest_eq h
  have hnone : ∀ k : String,
      (k == "level" || k == "time" || k == "message") = true →
      mapGet rest k = none := by
    intro k hk
    rw [hrest, mapGet_eq_none_iff]
    intro hmem
    rcases List.mem_map.mp hmem with ⟨p, hp, hfst⟩
    have hpred := (List.mem_filter.mp hp).2
    rw [hfst] at hpred
    simp [hk] at hpred
  have hne : ∀ k : String,
      (k == "level" || k == "time" || k == "message") = true →
      ∀ p ∈ rest, p.1 ≠ k := by
    intro k hk p hp heq
    rw [hrest] at hp
    have hpred := (List.mem_filter.mp hp).2
    rw [heq] at hpred
    simp [hk] at hpred
  refine ⟨hrest, hnone _ (by decide), hnone _ (by decide), hnone _ (by decide), ?_⟩
  intro message host w hf
  obtain ⟨gl2, ts2, fm2, rest2, hp2, hw⟩ := formatOk_inv hf
  rw [h] at hp2
  cases hp2
  refine ⟨?_, ?_, ?_⟩
  · have he : ("_level" : String) = "_" ++ "level" := rfl
    rw [he]
    exact gelfRecord_lookup_no_extra hw (hne _ (by decide)) rfl
  · have he : ("_time" : String) = "_" ++ "time" := rfl
    rw [he]
    exact gelfRecord_lookup_no_extra hw (hne _ (by decide)) rfl
  · have he : ("_message" : String) = "_" ++ "message" := rfl
    rw [he]
    exact gelfRecord_lookup_no_extra hw (hne _ (by decide)) rfl

/-- Witness for **C7** at the event map `{"message":"m","x":1}` with
current time 7 ms. -/
theorem processed_fields_drop_reserved_witness :
    ([("x", GoVal.num 1)] : GoMap)
        = ([("message", GoVal.str "m"), ("x", GoVal.num 1)] : GoMap).filter
            (fun p => !(p.1 == "level" || p.1 == "time" || p.1 == "message")) ∧
    mapGet [("x", GoVal.num 1)] "level" = none ∧
    mapGet [("x", GoVal.num 1)] "time" = none ∧
    mapGet [("x", GoVal.num 1)] "message" = none ∧
    (mapGet [("_x", GoVal.num 1),
        ("full_message", GoVal.jsonStr (some (.obj
            [("level", .num 6), ("message", .str "m"), ("time", .num 7),
             ("x", .num 1)]))),
        ("host", GoVal.str "h"), ("level", GoVal.num 6),
        ("short_message", GoVal.str "m"),
        ("timestamp", GoVal.num (ratDiv 7 1000)),
        ("version", GoVal.str "1.1")] "_level" = none ∧
     mapGet [("_x", GoVal.num 1),
        ("full_message", GoVal.jsonStr (some (.obj
            [("level", .num 6), ("message", .str "m"), ("time", .num 7),
             ("x", .num 1)]))),
        ("host", GoVal.str "h"), ("level", GoVal.num 6),
        ("short_message", GoVal.str "m"),
        ("timestamp", GoVal.num (ratDiv 7 1000)),
        ("version", GoVal.str "1.1")] "_time" = none ∧
     mapGet [("_x", GoVal.num 1),
        ("full_message", GoVal.jsonStr (some (.obj
            [("level", .num 6), ("message", .str "m"), ("time", .num 7),
             ("x", .num 1)]))),
        ("host", GoVal.str "h"), ("level", GoVal.num 6),
        ("short_message", GoVal.str "m"),
        ("timestamp", GoVal.num (ratDiv 7 1000)),
        ("version", GoVal.str "1.1")] "_message" = none) := by
  have h := processed_fields_drop_reserved 7
    [("message", GoVal.str "m"), ("x", GoVal.num 1)] 6 (ratDiv 7 1000)
    (some (.obj [("level", .num 6), ("message", .str "m"), ("time", .num 7),
       ("x", .num 1)]))
    [("x", GoVal.num 1)] (by decide)
  exact ⟨h.1, h.2.1, h.2.2.1, h.2.2.2.1,
    h.2.2.2.2 "m" "h" _ (by decide)⟩

/-- Counterexample for **C8** as stated: on the field map
`{"message": <non-JSON-encodable Go value>}` the serialization of the event
field map fails, yet the failure is not surfaced: `ProcessZerologFields`
returns success (the marshal error is only written to the process log) with
nil `fullMessage`, and `formatGELFMessage` returns a complete wire record
with an empty `full_message` and no error. -/
theorem processor_marshal_failure_swallowed :
    jsonMarshal (.obj [("message", GoVal.goOnly 0), ("time", .num 7),
        ("level", .num 6)]) = none ∧
    ProcessZerologFields 7 [("message", .goOnly 0)]
      = .ok 6 (ratDiv 7 1000) none [] ∧
    formatGELFMessage "m" [("message", .goOnly 0)] "h" 7
      = .ok (.obj [("full_message", .jsonStr none), ("host", .str "h"),
          ("level", .num 6), ("short_message", .str "m"),
          ("timestamp", .num (ratDiv 7 1000)), ("version", .str "1.1")]) := by
  refine ⟨?_, ?_, ?_⟩ <;> decide

/-- **C8** (amended).  A serialization failure of the event field map inside
the field processor is not surfaced to the caller: the processor still
returns success, with a `none` (nil-bytes) `fullMessage` when the processed
map is not serializable.  Only a failure to serialize the final wire-record
map is returned as an error, by `formatGELFMessage`, with no record
produced. -/
theorem serialization_failure_surfacing (message host : String)
    (fields : GoMap) (q : ℚ) :
    (timeAbsentOrNum fields = true → levelAbsentOrStr fields = true →
      ∃ lvl gl ts rest,
        ProcessZerologFields q fields
          = .ok gl ts (jsonMarshal (.obj (processedMap q fields lvl))) rest ∧
        (marshalable (.obj (processedMap q fields lvl)) = false →
          jsonMarshal (.obj (processedMap q fields lvl)) = none)) ∧
    (∀ gl ts fm rest, ProcessZerologFields q fields = .ok gl ts fm rest →
      marshalable (.obj (gelfRecordMap message host gl ts fm rest)) = false →
      formatGELFMessage message fields host q
        = .fails "json: unsupported type") := by
  constructor
  · intro ht hl
    obtain ⟨x, hx, -, -⟩ := withTimeDefault_time_of_ok ht
    obtain ⟨lvl, hok⟩ := process_ok_of_valid hx hl
    refine ⟨lvl, _, _, _, hok, fun hm => ?_⟩
    unfold jsonMarshal
    rw [hm]
    rfl
  · intro gl ts fm rest hp hm
    unfold formatGELFMessage
    rw [hp]
    simp [jsonMarshal, hm]

/-- Witness for **C8**: the unserializable-map input
`{"message": <non-encodable>}` exercises the swallowed-failure branch, and
`{"a": <non-encodable>}` (whose residue reaches the record as `_a`)
exercises the surfaced wire-record marshal failure. -/
theorem serialization_failure_surfacing_witness :
    (∃ lvl gl ts rest,
      ProcessZerologFields 7 [("message", GoVal.goOnly 0)]
        = .ok gl ts
            (jsonMarshal (.obj (processedMap 7 [("message", GoVal.goOnly 0)] lvl)))
            rest ∧
      (marshalable (.obj (processedMap 7 [("message", GoVal.goOnly 0)] lvl)) = false →
        jsonMarshal (.obj (processedMap 7 [("message", GoVal.goOnly 0)] lvl)) = none)) ∧
    formatGELFMessage "m" [("a", .goOnly 1)] "h" 7
      = .fails "json: unsupported type" := by
  constructor
  · exact (serialization_failure_surfacing "m" "h" [("message", .goOnly 0)] 7).1
      (by decide) (by decide)
  · exact (serialization_failure_surfacing "m" "h" [("a", .goOnly 1)] 7).2
      6 (ratDiv 7 1000)
      (jsonMarshal (.obj (processedMap 7 [("a", .goOnly 1)] "info")))
      [("a", .goOnly 1)] (by decide) (by decide)
